import Mathlib

/-!
Shallow embedding of the neon-chronos trail-sampling and skeleton-rendering
pipeline.

Numbers flowing through the pipeline (timestamps in milliseconds, landmark
coordinates, buffer contents) are modelled as exact rationals (`ℚ`);
JavaScript arrays of landmarks, which may have absent (`undefined`) entries,
are modelled as `List (Option Landmark)`; the possibly-absent `landmarks`
field of a frame is an `Option`; the `Float32Array` position buffer is a
`List ℚ` written through `List.set` (which, like a typed-array store, is a
silent no-op out of bounds).
-/

namespace NeonChronos

/-- A pose landmark: normalized `x`, `y` in `[0,1]`, relative depth `z`,
optional visibility score (from `types.ts`). -/
structure Landmark where
  x : ℚ
  y : ℚ
  z : ℚ
  visibility : Option ℚ := none
deriving DecidableEq

/-- One detection result: a wall-clock timestamp (ms) and the landmark
array.  The landmark field is optional and entries may be absent, mirroring
the renderer's runtime guards `bestFrame.landmarks` and `start && end`. -/
structure PoseFrame where
  timestamp : ℚ
  landmarks : Option (List (Option Landmark)) := none
deriving DecidableEq

/-- The fixed body-connection topology (`POSE_CONNECTIONS`). -/
def POSE_CONNECTIONS : List (ℕ × ℕ) :=
  [(11, 12), (11, 13), (13, 15), (12, 14), (14, 16),
   (11, 23), (12, 24), (23, 24),
   (23, 25), (25, 27), (24, 26), (26, 28),
   (27, 29), (29, 31), (27, 31),
   (28, 30), (30, 32), (28, 32),
   (15, 17), (17, 19), (19, 21), (15, 21),
   (16, 18), (18, 20), (20, 22), (16, 22),
   (9, 10)]

/-- The fixed face-connection topology (`FACE_CONNECTIONS`). -/
def FACE_CONNECTIONS : List (ℕ × ℕ) :=
  [(0, 1), (1, 2), (2, 3), (3, 7),
   (0, 4), (4, 5), (5, 6), (6, 8)]

/-- The full topology `ALL_CONNECTIONS = [...POSE_CONNECTIONS, ...FACE_CONNECTIONS]`. -/
def ALL_CONNECTIONS : List (ℕ × ℕ) := POSE_CONNECTIONS ++ FACE_CONNECTIONS

/-- Number of trail layers, `TRAIL_COUNT = 15`. -/
def TRAIL_COUNT : ℕ := 15

/-- Maximal trail delay in milliseconds, `MAX_DELAY_MS = 2500`. -/
def MAX_DELAY_MS : ℕ := 2500

/-- The three neon palette entries (hex color values). -/
def neonColors : List ℕ := [0x00ffff, 0xbf00ff, 0xff00ff]

/-- The base `1.0 - (i / TRAIL_COUNT)` of the per-layer material opacity
`Math.pow(1.0 - (i / TRAIL_COUNT), 1.5)` from the material construction. -/
def opacityBase (i : ℕ) : ℚ := 1 - (i : ℚ) / (TRAIL_COUNT : ℚ)

/-- The mutable per-layer render state: the line-segment position buffer and
the visibility flag of one `THREE.LineSegments` mesh. -/
structure LayerState where
  positions : List ℚ
  visible : Bool
deriving DecidableEq

/-- The trail layers as created at startup: `TRAIL_COUNT` meshes, each with a
zero-initialized position buffer of `ALL_CONNECTIONS.length * 2 * 3` floats
and the default visibility `true` of a fresh `THREE.Object3D`. -/
def initialLayers : List LayerState :=
  (List.range TRAIL_COUNT).map fun _ =>
    { positions := List.replicate (ALL_CONNECTIONS.length * 2 * 3) 0, visible := true }

/-- The early-terminating nearest-frame scan from the render tick: starting
from a current best `(bestFrame, minDiff)`, update the best on a strictly
smaller difference and break out of the loop on a strictly larger one. -/
def scanAux (target : ℚ) : List PoseFrame → PoseFrame × ℚ → PoseFrame × ℚ
  | [], best => best
  | f :: fs, (bf, md) =>
    if |f.timestamp - target| < md then scanAux target fs (f, |f.timestamp - target|)
    else if |f.timestamp - target| > md then (bf, md)
    else scanAux target fs (bf, md)

/-- The per-layer nearest-frame search of the render tick: `bestFrame`
starts at `history[0]`, `minDiff` at its absolute difference from the
target, then the early-terminating scan runs over the remaining frames.
Returns `none` on an empty history (the code never reaches the scan then). -/
def findNearest (history : List PoseFrame) (target : ℚ) : Option (PoseFrame × ℚ) :=
  match history with
  | [] => none
  | h :: rest => some (scanAux target rest (h, |h.timestamp - target|))

/-- Modelled from the spec: the reference full linear scan ("a full linear
scan over the whole history"), which never terminates early and keeps the
first frame attaining the minimal difference. -/
def scanFull (target : ℚ) : List PoseFrame → PoseFrame × ℚ → PoseFrame × ℚ
  | [], best => best
  | f :: fs, (bf, md) =>
    if |f.timestamp - target| < md then scanFull target fs (f, |f.timestamp - target|)
    else scanFull target fs (bf, md)

/-- Modelled from the spec: `findNearest` implemented with the full linear
scan instead of the early-terminating one. -/
def findNearestFull (history : List PoseFrame) (target : ℚ) : Option (PoseFrame × ℚ) :=
  match history with
  | [] => none
  | h :: rest => some (scanFull target rest (h, |h.timestamp - target|))

/-- World x-coordinate of a landmark: `(1.0 - x - 0.5) * 15`. -/
def worldX (x : ℚ) : ℚ := (1 - x - 0.5) * 15

/-- World y-coordinate of a landmark: `(0.5 - y) * 15`. -/
def worldY (y : ℚ) : ℚ := (0.5 - y) * 15

/-- World z-coordinate of a landmark: `-z * 10`. -/
def worldZ (z : ℚ) : ℚ := -z * 10

/-- The six floats written for one connection whose endpoints `start`/`end`
are both present: the transformed start point then the transformed end
point. -/
def segFloats (s e : Landmark) : List ℚ :=
  [worldX s.x, worldY s.y, worldZ s.z, worldX e.x, worldY e.y, worldZ e.z]

/-- JavaScript array lookup `landmarks[i]`: `none` both when the index is
out of range and when the entry itself is absent. -/
def lmAt (lms : List (Option Landmark)) (i : ℕ) : Option Landmark :=
  (lms[i]?).join

/-- Sequential stores `positions[pIdx++] = v` for a list of values: each
value is written one index after the previous one.  Out-of-range stores are
silent no-ops, as on a `Float32Array`. -/
def writeAt (buf : List ℚ) (p : ℕ) : List ℚ → List ℚ
  | [] => buf
  | v :: vs => writeAt (buf.set p v) (p + 1) vs

/-- The connection-drawing loop of the render tick: one shared `pIdx`
starting at `p`; a connection whose two endpoints are present writes its six
floats at `pIdx` and advances `pIdx` by 6; a connection with an absent
endpoint writes nothing and leaves `pIdx` unchanged.  Returns the final
buffer and the final `pIdx`. -/
def writeConnections (conns : List (ℕ × ℕ)) (lms : List (Option Landmark))
    (buf : List ℚ) (p : ℕ) : List ℚ × ℕ :=
  match conns with
  | [] => (buf, p)
  | c :: rest =>
    match lmAt lms c.1, lmAt lms c.2 with
    | some s, some e => writeConnections rest lms (writeAt buf p (segFloats s e)) (p + 6)
    | _, _ => writeConnections rest lms buf p

/-- The concatenated six-float blocks of the connections whose endpoints are
both present, in topology order. -/
def presentSegs (conns : List (ℕ × ℕ)) (lms : List (Option Landmark)) : List ℚ :=
  match conns with
  | [] => []
  | c :: rest =>
    match lmAt lms c.1, lmAt lms c.2 with
    | some s, some e => segFloats s e ++ presentSegs rest lms
    | _, _ => presentSegs rest lms

/-- One full buffer update of a layer: the connection-drawing loop over
`ALL_CONNECTIONS` with `pIdx` starting at 0. -/
def updatePositions (lms : List (Option Landmark)) (buf : List ℚ) : List ℚ × ℕ :=
  writeConnections ALL_CONNECTIONS lms buf 0

/-- The target timestamp of layer `i` at tick time `now`:
`now - (i / (TRAIL_COUNT - 1)) * MAX_DELAY_MS`. -/
def layerTarget (now : ℚ) (i : ℕ) : ℚ :=
  now - ((i : ℚ) / ((TRAIL_COUNT : ℚ) - 1)) * (MAX_DELAY_MS : ℚ)

/-- The per-layer body of the render tick: find the nearest frame to the
layer's target timestamp; if its landmarks are present and the difference is
under 1000 ms, rewrite the position buffer and show the layer, otherwise
hide the layer and leave the buffer untouched. -/
def tickLayer (history : List PoseFrame) (now : ℚ) (i : ℕ) (st : LayerState) : LayerState :=
  match findNearest history (layerTarget now i) with
  | none => st
  | some (bestFrame, minDiff) =>
    match bestFrame.landmarks with
    | some lms =>
      if minDiff < 1000 then
        { positions := (updatePositions lms st.positions).1, visible := true }
      else
        { st with visible := false }
    | none => { st with visible := false }

/-- One render tick over all layers: when the history is non-empty, every
layer is updated by `tickLayer` with its own index; when the history is
empty the whole per-layer block is skipped and the layers are returned
unchanged. -/
def animateTick (history : List PoseFrame) (now : ℚ) (layers : List LayerState) :
    List LayerState :=
  if history.length > 0 then layers.mapIdx (fun i st => tickLayer history now i st)
  else layers

/-- One append into the history store (`pose.onResults`): push the new frame
at the tail, then drop the head if the length now exceeds 200. -/
def appendFrame (h : List PoseFrame) (fr : PoseFrame) : List PoseFrame :=
  let h2 := h ++ [fr]
  if h2.length > 200 then h2.tail else h2

/-! ### History store lemmas -/

lemma drop_congr {α : Type _} (l : List α) {a b : ℕ} (hab : a = b) :
    l.drop a = l.drop b := by
  rw [hab]

lemma appendFrame_length_le {h : List PoseFrame} (fr : PoseFrame) (hh : h.length ≤ 200) :
    (appendFrame h fr).length ≤ 200 := by
  by_cases hcap : h.length + 1 > 200
  · simp [appendFrame, hcap]
    omega
  · simp [appendFrame, hcap]
    omega

lemma foldl_appendFrame_drop (fs : List PoseFrame) :
    ∀ h : List PoseFrame, h.length ≤ 200 →
      List.foldl appendFrame h fs = (h ++ fs).drop (h.length + fs.length - 200) := by
  induction fs with
  | nil =>
    intro h hh
    simp [Nat.sub_eq_zero_of_le hh]
  | cons f fs ih =>
    intro h hh
    rw [List.foldl_cons]
    by_cases hlen : h.length + 1 > 200
    · have hl200 : h.length = 200 := by omega
      have h1 : appendFrame h f = (h ++ [f]).tail := by
        simp [appendFrame, hlen]
      rw [← List.drop_one] at h1
      rw [h1, ih ((h ++ [f]).drop 1) (by simp [hl200])]
      rw [← List.drop_append_of_le_length (by simp : 1 ≤ (h ++ [f]).length)]
      simp only [List.drop_drop, List.append_assoc, List.singleton_append, List.length_drop,
        List.length_append, List.length_cons, List.length_nil, hl200]
      exact drop_congr _ (by omega)
    · have h1 : appendFrame h f = h ++ [f] := by
        simp [appendFrame, hlen]
      rw [h1, ih (h ++ [f]) (by simp; omega)]
      simp only [List.append_assoc, List.singleton_append, List.length_append,
        List.length_cons, List.length_nil]
      exact drop_congr _ (by omega)

/-- C4: for every sequence of appends into the empty history store, the result
is exactly the suffix of the 200 most recent frames in arrival order, its
length is `min N 200`, and an append to a full store evicts the head. -/
theorem claim_C4_history_bound :
    (∀ fs : List PoseFrame,
        List.foldl appendFrame [] fs = fs.drop (fs.length - 200) ∧
        (List.foldl appendFrame [] fs).length = min fs.length 200) ∧
    (∀ (h : List PoseFrame) (fr : PoseFrame), h.length = 200 →
        appendFrame h fr = h.tail ++ [fr]) := by
  constructor
  · intro fs
    have h1 := foldl_appendFrame_drop fs [] (by simp)
    simp only [List.nil_append, List.length_nil, Nat.zero_add] at h1
    refine ⟨h1, ?_⟩
    rw [h1, List.length_drop]
    omega
  · intro h fr hl
    have hne : h ≠ [] := by
      intro hnil
      rw [hnil] at hl
      simp at hl
    have hcap : (h ++ [fr]).length > 200 := by simp [hl]
    simp only [appendFrame, hcap, if_pos]
    rw [List.tail_append_of_ne_nil hne]

/-- A concrete frame used by witnesses: timestamp 1000 ms. -/
def fr1000 : PoseFrame := { timestamp := 1000 }

/-- A concrete frame used by witnesses: timestamp 1030 ms. -/
def fr1030 : PoseFrame := { timestamp := 1030 }

/-- Witness for C4: appending to a full 200-frame store evicts the head. -/
theorem claim_C4_history_bound_witness :
    (List.replicate 200 fr1000).length = 200 ∧
    appendFrame (List.replicate 200 fr1000) fr1030 =
      (List.replicate 200 fr1000).tail ++ [fr1030] :=
  ⟨List.length_replicate 200 fr1000,
   claim_C4_history_bound.2 (List.replicate 200 fr1000) fr1030
     (List.length_replicate 200 fr1000)⟩

/-! ### Layer delay spread -/

/-- C7: with 15 layers and a 2500 ms maximal delay, layer `i` is sampled at
target timestamp `now - i / (15 - 1) * 2500`. -/
theorem claim_C7_layer_delay_spread :
    TRAIL_COUNT = 15 ∧ MAX_DELAY_MS = 2500 ∧
    ∀ (now : ℚ) (i : ℕ), i < TRAIL_COUNT →
      layerTarget now i = now - (i : ℚ) / ((15 : ℚ) - 1) * 2500 := by
  refine ⟨rfl, rfl, ?_⟩
  intro now i _
  simp only [layerTarget, TRAIL_COUNT, MAX_DELAY_MS]
  norm_num

/-- Witness for C7 at layer 7 and tick time 10000 ms. -/
theorem claim_C7_layer_delay_spread_witness :
    (7 : ℕ) < TRAIL_COUNT ∧
    layerTarget 10000 7 = 10000 - (7 : ℚ) / ((15 : ℚ) - 1) * 2500 :=
  ⟨by norm_num [TRAIL_COUNT],
   claim_C7_layer_delay_spread.2.2 10000 7 (by norm_num [TRAIL_COUNT])⟩

/-! ### Coordinate transform -/

/-- C9: the landmark transform mirrors horizontally and centers: the world x
is `(0.5 - x) * 15`, the world y is `(0.5 - y) * 15`, input `(0.5, 0.5)` maps
to world `(0, 0)`, world x is strictly decreasing in input x and satisfies
the mirror law, and both world coordinates stay within `[-7.5, 7.5]` for
inputs in `[0, 1]`. -/
theorem claim_C9_coordinate_transform :
    (∀ x : ℚ, worldX x = (0.5 - x) * 15) ∧
    (∀ y : ℚ, worldY y = (0.5 - y) * 15) ∧
    worldX 0.5 = 0 ∧ worldY 0.5 = 0 ∧
    (∀ x1 x2 : ℚ, x1 < x2 → worldX x2 < worldX x1) ∧
    (∀ x : ℚ, worldX (1 - x) = -worldX x) ∧
    (∀ x : ℚ, 0 ≤ x → x ≤ 1 → -7.5 ≤ worldX x ∧ worldX x ≤ 7.5) ∧
    (∀ y : ℚ, 0 ≤ y → y ≤ 1 → -7.5 ≤ worldY y ∧ worldY y ≤ 7.5) := by
  refine ⟨?_, ?_, ?_, ?_, ?_, ?_, ?_, ?_⟩
  · intro x; simp only [worldX]; ring
  · intro y; simp only [worldY]
  · norm_num [worldX]
  · norm_num [worldY]
  · intro x1 x2 hx; simp only [worldX]; linarith
  · intro x; simp only [worldX]; ring
  · intro x h0 h1; simp only [worldX]; constructor <;> nlinarith
  · intro y h0 h1; simp only [worldY]; constructor <;> nlinarith

/-- Witness for C9: the world x-range bound applied at input x = 1. -/
theorem claim_C9_coordinate_transform_witness :
    (0 : ℚ) ≤ 1 ∧ (1 : ℚ) ≤ 1 ∧ (-7.5 ≤ worldX 1 ∧ worldX 1 ≤ 7.5) :=
  ⟨by norm_num, by norm_num,
   claim_C9_coordinate_transform.2.2.2.2.2.2.1 1 (by norm_num) (by norm_num)⟩

/-! ### Empty history tick -/

/-- Counterexample for C5: on a render tick with empty history and the
freshly created (visible) layers, the renderer does not hide the layers; the
tick is a no-op and the layers stay visible. -/
theorem claim_C5_counterexample :
    ¬ ∀ st ∈ animateTick [] 0 initialLayers, st.visible = false := by
  intro hall
  have hmem : ({ positions := List.replicate (ALL_CONNECTIONS.length * 2 * 3) 0,
                 visible := true } : LayerState) ∈ animateTick [] 0 initialLayers := by
    simp only [animateTick, List.length_nil, gt_iff_lt, Nat.lt_irrefl, if_false,
      initialLayers, List.mem_map, List.mem_range]
    exact ⟨0, by norm_num [TRAIL_COUNT]⟩
  have := hall _ hmem
  simp at this

/-- C5 amended: on a render tick with empty history the sampler yields no
result and the tick leaves every layer untouched (visibility flag and buffer
both unchanged); layers are not necessarily hidden. -/
theorem claim_C5_empty_history_noop :
    ∀ (target now : ℚ) (layers : List LayerState),
      findNearest [] target = none ∧ animateTick [] now layers = layers := by
  intro target now layers
  exact ⟨rfl, by simp [animateTick]⟩

/-! ### Temporal sampler lemmas -/

lemma scanFull_no_update (target : ℚ) :
    ∀ (fs : List PoseFrame) (bf : PoseFrame) (md : ℚ),
      (∀ g ∈ fs, md < |g.timestamp - target|) →
      scanFull target fs (bf, md) = (bf, md) := by
  intro fs
  induction fs with
  | nil => intro bf md _; rfl
  | cons f fs ih =>
    intro bf md hall
    have hf := hall f (List.mem_cons_self f fs)
    simp only [scanFull]
    rw [if_neg (not_lt.mpr hf.le)]
    exact ih bf md fun g hg => hall g (List.mem_cons_of_mem f hg)

lemma initial_inv (target : ℚ) (h : PoseFrame) (rest : List PoseFrame)
    (hhead : ∀ g ∈ rest, h.timestamp ≤ g.timestamp) :
    ∀ f ∈ rest, f.timestamp ≤ target →
      |f.timestamp - target| ≤ |h.timestamp - target| := by
  intro f hf hft
  have h1 : |f.timestamp - target| = target - f.timestamp := by
    rw [abs_of_nonpos (by linarith)]
    ring
  have h2 : target - h.timestamp ≤ |h.timestamp - target| := by
    rw [abs_sub_comm]
    exact le_abs_self _
  have h3 := hhead f hf
  linarith

lemma scanAux_eq_scanFull (target : ℚ) :
    ∀ (fs : List PoseFrame) (bf : PoseFrame) (md : ℚ),
      List.Pairwise (fun a b => a.timestamp ≤ b.timestamp) fs →
      (∀ f ∈ fs, f.timestamp ≤ target → |f.timestamp - target| ≤ md) →
      scanAux target fs (bf, md) = scanFull target fs (bf, md) := by
  intro fs
  induction fs with
  | nil => intro bf md _ _; rfl
  | cons f fs ih =>
    intro bf md hsort hinv
    obtain ⟨hhead, htail⟩ := List.pairwise_cons.mp hsort
    simp only [scanAux, scanFull]
    by_cases h1 : |f.timestamp - target| < md
    · rw [if_pos h1, if_pos h1]
      apply ih f |f.timestamp - target| htail
      intro g hg hgt
      have hfg := hhead g hg
      have e1 : |g.timestamp - target| = target - g.timestamp := by
        rw [abs_of_nonpos (by linarith)]
        ring
      have e2 : target - f.timestamp ≤ |f.timestamp - target| := by
        rw [abs_sub_comm]
        exact le_abs_self _
      linarith
    · by_cases h2 : |f.timestamp - target| > md
      · rw [if_neg h1, if_neg h1, if_pos h2]
        have hft : target < f.timestamp := by
          by_contra hle
          push_neg at hle
          exact absurd (hinv f (List.mem_cons_self f fs) hle) (not_le.mpr h2)
        symm
        apply scanFull_no_update
        intro g hg
        have hfg := hhead g hg
        have e1 : |g.timestamp - target| = g.timestamp - target :=
          abs_of_nonneg (by linarith)
        have e2 : |f.timestamp - target| = f.timestamp - target :=
          abs_of_nonneg (by linarith)
        rw [e2] at h2
        rw [e1]
        linarith
      · rw [if_neg h1, if_neg h1, if_neg h2]
        apply ih bf md htail
        have heq : |f.timestamp - target| = md :=
          le_antisymm (not_lt.mp h2) (not_lt.mp h1)
        intro g hg hgt
        have hfg := hhead g hg
        have e1 : |g.timestamp - target| = target - g.timestamp := by
          rw [abs_of_nonpos (by linarith)]
          ring
        have e2 : target - f.timestamp ≤ |f.timestamp - target| := by
          rw [abs_sub_comm]
          exact le_abs_self _
        linarith

lemma scanFull_spec (target : ℚ) :
    ∀ (fs : List PoseFrame) (bf : PoseFrame) (md : ℚ), md = |bf.timestamp - target| →
      ∃ fr d, scanFull target fs (bf, md) = (fr, d) ∧
        d = |fr.timestamp - target| ∧ d ≤ md ∧
        (∀ g ∈ fs, d ≤ |g.timestamp - target|) ∧
        ((fr = bf ∧ d = md) ∨
          ∃ l1 l2, fs = l1 ++ fr :: l2 ∧ d < md ∧
            ∀ g ∈ l1, d < |g.timestamp - target|) := by
  intro fs
  induction fs with
  | nil =>
    intro bf md hmd
    exact ⟨bf, md, rfl, hmd, le_refl md, by simp, Or.inl ⟨rfl, rfl⟩⟩
  | cons f fs ih =>
    intro bf md hmd
    by_cases h1 : |f.timestamp - target| < md
    · obtain ⟨fr, d, heq, hd, hdle, hmin, hdisj⟩ := ih f |f.timestamp - target| rfl
      refine ⟨fr, d, ?_, hd, hdle.trans h1.le, ?_, ?_⟩
      · simp only [scanFull]
        rw [if_pos h1]
        exact heq
      · intro g hg
        rcases List.mem_cons.mp hg with rfl | hg'
        · exact hdle
        · exact hmin g hg'
      · rcases hdisj with ⟨hfr, hdm⟩ | ⟨l1, l2, hfs, hlt, hties⟩
        · subst hfr
          right
          refine ⟨[], fs, by simp, ?_, by simp⟩
          rw [hdm]
          exact h1
        · right
          refine ⟨f :: l1, l2, by rw [hfs]; rfl, hlt.trans h1, ?_⟩
          intro g hg
          rcases List.mem_cons.mp hg with rfl | hg'
          · exact hlt
          · exact hties g hg'
    · obtain ⟨fr, d, heq, hd, hdle, hmin, hdisj⟩ := ih bf md hmd
      refine ⟨fr, d, ?_, hd, hdle, ?_, ?_⟩
      · simp only [scanFull]
        rw [if_neg h1]
        exact heq
      · intro g hg
        rcases List.mem_cons.mp hg with rfl | hg'
        · exact hdle.trans (not_lt.mp h1)
        · exact hmin g hg'
      · rcases hdisj with hl | ⟨l1, l2, hfs, hlt, hties⟩
        · exact Or.inl hl
        · right
          refine ⟨f :: l1, l2, by rw [hfs]; rfl, hlt, ?_⟩
          intro g hg
          rcases List.mem_cons.mp hg with rfl | hg'
          · exact hlt.trans_le (not_lt.mp h1)
          · exact hties g hg'

/-- C1: on a non-empty history with non-decreasing timestamps, the per-layer
nearest-frame search returns a frame of the history whose absolute timestamp
difference from the target is minimal, together with that difference, and
every frame scanned before it has a strictly larger difference (ties are won
by the earliest frame). -/
theorem claim_C1_sampler_nearest :
    ∀ (history : List PoseFrame) (target : ℚ),
      history ≠ [] →
      List.Pairwise (fun a b => a.timestamp ≤ b.timestamp) history →
      ∃ fr d l1 l2,
        findNearest history target = some (fr, d) ∧
        d = |fr.timestamp - target| ∧
        (∀ g ∈ history, d ≤ |g.timestamp - target|) ∧
        history = l1 ++ fr :: l2 ∧
        (∀ g ∈ l1, d < |g.timestamp - target|) := by
  intro history target hne hsort
  cases history with
  | nil => exact absurd rfl hne
  | cons h rest =>
    obtain ⟨hhead, htail⟩ := List.pairwise_cons.mp hsort
    have hscan := scanAux_eq_scanFull target rest h |h.timestamp - target| htail
      (initial_inv target h rest hhead)
    obtain ⟨fr, d, heq, hd, hdle, hmin, hdisj⟩ :=
      scanFull_spec target rest h |h.timestamp - target| rfl
    have hfind : findNearest (h :: rest) target = some (fr, d) := by
      simp only [findNearest]
      rw [hscan, heq]
    rcases hdisj with ⟨hfr, hdm⟩ | ⟨l1, l2, hrest, hlt, hties⟩
    · subst hfr
      refine ⟨fr, d, [], rest, hfind, hd, ?_, by simp, by simp⟩
      intro g hg
      rcases List.mem_cons.mp hg with rfl | hg'
      · exact le_of_eq hdm
      · exact hmin g hg'
    · refine ⟨fr, d, h :: l1, l2, hfind, hd, ?_, by rw [hrest]; rfl, ?_⟩
      · intro g hg
        rcases List.mem_cons.mp hg with rfl | hg'
        · exact hdle
        · exact hmin g hg'
      · intro g hg
        rcases List.mem_cons.mp hg with rfl | hg'
        · exact hlt
        · exact hties g hg'

/-- Witness for C1: the spec scenario history `[t:1000, t:1030]` with target
1010 satisfies the hypotheses and the search conclusion. -/
theorem claim_C1_sampler_nearest_witness :
    ([fr1000, fr1030] ≠ ([] : List PoseFrame)) ∧
    List.Pairwise (fun a b : PoseFrame => a.timestamp ≤ b.timestamp) [fr1000, fr1030] ∧
    ∃ fr d l1 l2,
      findNearest [fr1000, fr1030] 1010 = some (fr, d) ∧
      d = |fr.timestamp - 1010| ∧
      (∀ g ∈ [fr1000, fr1030], d ≤ |g.timestamp - 1010|) ∧
      [fr1000, fr1030] = l1 ++ fr :: l2 ∧
      (∀ g ∈ l1, d < |g.timestamp - 1010|) :=
  ⟨by simp, by norm_num [fr1000, fr1030],
   claim_C1_sampler_nearest [fr1000, fr1030] 1010 (by simp)
     (by norm_num [fr1000, fr1030])⟩

/-- The spec scenario pinned to its concrete result: the sampler prefers the
frame at 1000 ms (difference 10) over the frame at 1030 ms (difference 20). -/
theorem findNearest_scenario :
    findNearest [fr1000, fr1030] 1010 = some (fr1000, 10) := by
  norm_num [findNearest, scanAux, fr1000, fr1030]

/-- C2: on any history with non-decreasing timestamps, the early-terminating
scan of the render tick and the full linear scan return identical results. -/
theorem claim_C2_early_exit_equiv :
    ∀ (history : List PoseFrame) (target : ℚ),
      List.Pairwise (fun a b => a.timestamp ≤ b.timestamp) history →
      findNearest history target = findNearestFull history target := by
  intro history target hsort
  cases history with
  | nil => rfl
  | cons h rest =>
    obtain ⟨hhead, htail⟩ := List.pairwise_cons.mp hsort
    simp only [findNearest, findNearestFull]
    rw [scanAux_eq_scanFull target rest h |h.timestamp - target| htail
      (initial_inv target h rest hhead)]

/-- Witness for C2 on the concrete sorted two-frame history. -/
theorem claim_C2_early_exit_equiv_witness :
    List.Pairwise (fun a b : PoseFrame => a.timestamp ≤ b.timestamp) [fr1000, fr1030] ∧
    findNearest [fr1000, fr1030] 1010 = findNearestFull [fr1000, fr1030] 1010 :=
  ⟨by norm_num [fr1000, fr1030],
   claim_C2_early_exit_equiv [fr1000, fr1030] 1010 (by norm_num [fr1000, fr1030])⟩

/-! ### Position-buffer lemmas -/

lemma segFloats_length (s e : Landmark) : (segFloats s e).length = 6 := rfl

lemma writeAt_append (vs ws : List ℚ) :
    ∀ (buf : List ℚ) (p : ℕ),
      writeAt buf p (vs ++ ws) = writeAt (writeAt buf p vs) (p + vs.length) ws := by
  induction vs with
  | nil => intro buf p; simp [writeAt]
  | cons v vs ih =>
    intro buf p
    show writeAt (buf.set p v) (p + 1) (vs ++ ws) =
      writeAt (writeAt (buf.set p v) (p + 1) vs) (p + (vs.length + 1)) ws
    rw [ih (buf.set p v) (p + 1), show p + 1 + vs.length = p + (vs.length + 1) from by omega]

lemma writeAt_length (vs : List ℚ) :
    ∀ (buf : List ℚ) (p : ℕ), (writeAt buf p vs).length = buf.length := by
  induction vs with
  | nil => intro buf p; rfl
  | cons v vs ih =>
    intro buf p
    simp only [writeAt]
    rw [ih, List.length_set]

lemma getElem?_writeAt_of_ge (vs : List ℚ) :
    ∀ (buf : List ℚ) (p n : ℕ), p + vs.length ≤ n →
      (writeAt buf p vs)[n]? = buf[n]? := by
  induction vs with
  | nil => intro buf p n _; rfl
  | cons v vs ih =>
    intro buf p n hn
    simp only [List.length_cons] at hn
    simp only [writeAt]
    rw [ih (buf.set p v) (p + 1) n (by omega)]
    exact List.getElem?_set_ne (by omega)

lemma getElem?_writeAt (vs : List ℚ) :
    ∀ (buf : List ℚ) (p n : ℕ), p + vs.length ≤ buf.length →
      (writeAt buf p vs)[n]? =
        if p ≤ n ∧ n < p + vs.length then vs[n - p]? else buf[n]? := by
  induction vs with
  | nil =>
    intro buf p n _
    simp only [List.length_nil, Nat.add_zero]
    rw [if_neg (by omega)]
    rfl
  | cons v vs ih =>
    intro buf p n hlen
    simp only [List.length_cons] at hlen
    have hp : p < buf.length := by omega
    simp only [writeAt, List.length_cons]
    rw [ih (buf.set p v) (p + 1) n (by rw [List.length_set]; omega)]
    by_cases h1 : p + 1 ≤ n ∧ n < p + 1 + vs.length
    · rw [if_pos h1, if_pos (by omega)]
      have h2 : n - p = (n - (p + 1)) + 1 := by omega
      rw [h2, List.getElem?_cons_succ]
    · rw [if_neg h1]
      by_cases h2 : n = p
      · subst h2
        rw [if_pos (by omega), List.getElem?_set_self hp, Nat.sub_self,
          List.getElem?_cons_zero]
      · rw [List.getElem?_set_ne (fun hpn => h2 hpn.symm), if_neg (by omega)]

lemma writeConnections_eq (lms : List (Option Landmark)) :
    ∀ (conns : List (ℕ × ℕ)) (buf : List ℚ) (p : ℕ),
      writeConnections conns lms buf p =
        (writeAt buf p (presentSegs conns lms), p + (presentSegs conns lms).length) := by
  intro conns
  induction conns with
  | nil => intro buf p; simp [writeConnections, presentSegs, writeAt]
  | cons c rest ih =>
    intro buf p
    cases ha : lmAt lms c.1 with
    | none =>
      cases hb : lmAt lms c.2 with
      | none =>
        simp only [writeConnections, presentSegs, ha, hb]
        exact ih buf p
      | some e =>
        simp only [writeConnections, presentSegs, ha, hb]
        exact ih buf p
    | some s =>
      cases hb : lmAt lms c.2 with
      | none =>
        simp only [writeConnections, presentSegs, ha, hb]
        exact ih buf p
      | some e =>
        simp only [writeConnections, presentSegs, ha, hb]
        rw [ih (writeAt buf p (segFloats s e)) (p + 6), writeAt_append, segFloats_length,
          List.length_append, segFloats_length, Prod.mk.injEq]
        exact ⟨rfl, by omega⟩

lemma presentSegs_length_le (lms : List (Option Landmark)) :
    ∀ conns : List (ℕ × ℕ), (presentSegs conns lms).length ≤ 6 * conns.length := by
  intro conns
  induction conns with
  | nil => simp [presentSegs]
  | cons c rest ih =>
    cases ha : lmAt lms c.1 with
    | none =>
      cases hb : lmAt lms c.2 with
      | none =>
        simp only [presentSegs, ha, hb, List.length_cons]
        omega
      | some e =>
        simp only [presentSegs, ha, hb, List.length_cons]
        omega
    | some s =>
      cases hb : lmAt lms c.2 with
      | none =>
        simp only [presentSegs, ha, hb, List.length_cons]
        omega
      | some e =>
        simp only [presentSegs, ha, hb, List.length_append, segFloats_length,
          List.length_cons]
        omega

lemma presentSegs_length_full (lms : List (Option Landmark)) :
    ∀ conns : List (ℕ × ℕ),
      (∀ c ∈ conns, (lmAt lms c.1).isSome ∧ (lmAt lms c.2).isSome) →
      (presentSegs conns lms).length = 6 * conns.length := by
  intro conns
  induction conns with
  | nil => intro _; simp [presentSegs]
  | cons c rest ih =>
    intro hall
    obtain ⟨h1, h2⟩ := hall c (List.mem_cons_self c rest)
    obtain ⟨s, hs⟩ := Option.isSome_iff_exists.mp h1
    obtain ⟨e, he⟩ := Option.isSome_iff_exists.mp h2
    simp only [presentSegs, hs, he, List.length_append, segFloats_length, List.length_cons]
    rw [ih fun g hg => hall g (List.mem_cons_of_mem c hg)]
    omega

lemma writeConnections_filter_missing (lms : List (Option Landmark)) (k : ℕ)
    (hk : lmAt lms k = none) :
    ∀ (conns : List (ℕ × ℕ)) (buf : List ℚ) (p : ℕ),
      writeConnections conns lms buf p =
        writeConnections (conns.filter fun c => decide (c.1 ≠ k ∧ c.2 ≠ k)) lms buf p := by
  intro conns
  induction conns with
  | nil => intro buf p; rfl
  | cons c rest ih =>
    intro buf p
    by_cases hc : c.1 = k ∨ c.2 = k
    · have hfilter : (c :: rest).filter (fun c => decide (c.1 ≠ k ∧ c.2 ≠ k)) =
          rest.filter (fun c => decide (c.1 ≠ k ∧ c.2 ≠ k)) :=
        List.filter_cons_of_neg (by simp only [decide_eq_true_eq]; tauto)
      rw [hfilter, ← ih buf p]
      rcases hc with h | h
      · have ha : lmAt lms c.1 = none := by rw [h]; exact hk
        cases hb : lmAt lms c.2 with
        | none => simp only [writeConnections, ha, hb]
        | some e => simp only [writeConnections, ha, hb]
      · have hb : lmAt lms c.2 = none := by rw [h]; exact hk
        cases ha : lmAt lms c.1 with
        | none => simp only [writeConnections, ha, hb]
        | some s => simp only [writeConnections, ha, hb]
    · push_neg at hc
      have hfilter : (c :: rest).filter (fun c => decide (c.1 ≠ k ∧ c.2 ≠ k)) =
          c :: rest.filter (fun c => decide (c.1 ≠ k ∧ c.2 ≠ k)) :=
        List.filter_cons_of_pos (by simp only [decide_eq_true_eq]; exact hc)
      rw [hfilter]
      cases ha : lmAt lms c.1 with
      | none =>
        cases hb : lmAt lms c.2 with
        | none =>
          simp only [writeConnections, ha, hb]
          exact ih buf p
        | some e =>
          simp only [writeConnections, ha, hb]
          exact ih buf p
      | some s =>
        cases hb : lmAt lms c.2 with
        | none =>
          simp only [writeConnections, ha, hb]
          exact ih buf p
        | some e =>
          simp only [writeConnections, ha, hb]
          exact ih (writeAt buf p (segFloats s e)) (p + 6)

/-- A concrete landmark at the center of the source frame. -/
def lmCenter : Landmark := { x := 0.5, y := 0.5, z := 0 }

/-- A concrete full 33-entry landmark array (indices 0 to 32 all present). -/
def lmsFull : List (Option Landmark) := List.replicate 33 (some lmCenter)

/-- A concrete 33-entry landmark array whose entry 8 (referenced only by the
last connection of the topology) is absent. -/
def lmsMissing8 : List (Option Landmark) :=
  (List.range 33).map fun j => if j = 8 then none else some lmCenter

/-- C6: with every connection endpoint present, the drawing loop writes
exactly six floats per connection and fills exactly the whole
2 × |connections| × 3 buffer (the result does not depend on the previous
buffer contents); a connection with an absent endpoint is omitted exactly as
if filtered out of the topology; and when the landmark missing is index 8 —
referenced only by the final connection — the final six buffer slots retain
their previous-tick contents. -/
theorem claim_C6_segment_writes :
    (∀ (lms : List (Option Landmark)) (buf : List ℚ),
        (∀ c ∈ ALL_CONNECTIONS, (lmAt lms c.1).isSome ∧ (lmAt lms c.2).isSome) →
        buf.length = 2 * ALL_CONNECTIONS.length * 3 →
        (presentSegs ALL_CONNECTIONS lms).length = 6 * ALL_CONNECTIONS.length ∧
        (updatePositions lms buf).2 = 2 * ALL_CONNECTIONS.length * 3 ∧
        (updatePositions lms buf).1 = presentSegs ALL_CONNECTIONS lms) ∧
    (∀ (lms : List (Option Landmark)) (buf : List ℚ) (k : ℕ),
        lmAt lms k = none →
        updatePositions lms buf =
          writeConnections
            (ALL_CONNECTIONS.filter fun c => decide (c.1 ≠ k ∧ c.2 ≠ k)) lms buf 0) ∧
    (∀ (buf : List ℚ) (n : ℕ), 204 ≤ n →
        (updatePositions lmsMissing8 buf).2 = 204 ∧
        ((updatePositions lmsMissing8 buf).1)[n]? = buf[n]?) := by
  refine ⟨?_, ?_, ?_⟩
  · intro lms buf hfull hlen
    have hps := presentSegs_length_full lms ALL_CONNECTIONS hfull
    refine ⟨hps, ?_, ?_⟩
    · rw [updatePositions, writeConnections_eq]
      simp only
      omega
    · rw [updatePositions, writeConnections_eq]
      simp only
      apply List.ext_getElem?
      intro n
      rw [getElem?_writeAt (presentSegs ALL_CONNECTIONS lms) buf 0 n (by omega)]
      by_cases hn : n < (presentSegs ALL_CONNECTIONS lms).length
      · rw [if_pos ⟨Nat.zero_le n, by omega⟩, Nat.sub_zero]
      · rw [if_neg (by omega), List.getElem?_eq_none (by omega),
          List.getElem?_eq_none (by omega)]
  · intro lms buf k hk
    exact writeConnections_filter_missing lms k hk ALL_CONNECTIONS buf 0
  · intro buf n hn
    have h204 : (presentSegs ALL_CONNECTIONS lmsMissing8).length = 204 := by
      set_option maxRecDepth 20000 in decide
    constructor
    · rw [updatePositions, writeConnections_eq]
      simp only
      omega
    · rw [updatePositions, writeConnections_eq]
      simp only
      exact getElem?_writeAt_of_ge _ buf 0 n (by omega)

set_option maxRecDepth 20000 in
/-- Witness for C6: the full landmark array fills a 210-float buffer
completely. -/
theorem claim_C6_segment_writes_witness :
    (∀ c ∈ ALL_CONNECTIONS, (lmAt lmsFull c.1).isSome ∧ (lmAt lmsFull c.2).isSome) ∧
    (List.replicate 210 (0 : ℚ)).length = 2 * ALL_CONNECTIONS.length * 3 ∧
    (presentSegs ALL_CONNECTIONS lmsFull).length = 6 * ALL_CONNECTIONS.length ∧
    (updatePositions lmsFull (List.replicate 210 (0 : ℚ))).2 =
      2 * ALL_CONNECTIONS.length * 3 ∧
    (updatePositions lmsFull (List.replicate 210 (0 : ℚ))).1 =
      presentSegs ALL_CONNECTIONS lmsFull :=
  ⟨by decide, by decide,
   claim_C6_segment_writes.1 lmsFull (List.replicate 210 (0 : ℚ)) (by decide) (by decide)⟩

/-- C8: the per-tick layer update is a total function; the final write index
of the drawing loop never exceeds the allocated 2 × |connections| × 3 floats,
the buffer keeps its length, and no index at or beyond the allocation is ever
written. -/
theorem claim_C8_tick_safety :
    (∀ (history : List PoseFrame) (now : ℚ) (layers : List LayerState),
        (animateTick history now layers).length = layers.length) ∧
    (∀ (lms : List (Option Landmark)) (buf : List ℚ),
        (updatePositions lms buf).2 ≤ 2 * ALL_CONNECTIONS.length * 3 ∧
        ((updatePositions lms buf).1).length = buf.length ∧
        ∀ n : ℕ, 2 * ALL_CONNECTIONS.length * 3 ≤ n →
          ((updatePositions lms buf).1)[n]? = buf[n]?) := by
  constructor
  · intro history now layers
    by_cases h : history.length > 0
    · simp [animateTick, h]
    · simp [animateTick, h]
  · intro lms buf
    have hle := presentSegs_length_le lms ALL_CONNECTIONS
    refine ⟨?_, ?_, ?_⟩
    · rw [updatePositions, writeConnections_eq]
      simp only
      omega
    · rw [updatePositions, writeConnections_eq]
      simp only
      exact writeAt_length _ buf 0
    · intro n hn
      rw [updatePositions, writeConnections_eq]
      simp only
      exact getElem?_writeAt_of_ge _ buf 0 n (by omega)

/-- Witness for C8: index 300 lies beyond the allocation and is untouched. -/
theorem claim_C8_tick_safety_witness :
    2 * ALL_CONNECTIONS.length * 3 ≤ 300 ∧
    ((updatePositions lmsFull (List.replicate 210 (0 : ℚ))).1)[300]? =
      (List.replicate 210 (0 : ℚ))[300]? :=
  ⟨by decide,
   (claim_C8_tick_safety.2 lmsFull (List.replicate 210 (0 : ℚ))).2.2 300 (by decide)⟩

/-! ### Staleness hide policy -/

/-- C3: whenever the nearest-frame search for layer i returns a time
difference of at least 1000 ms, the render tick sets that layer invisible and
leaves its buffer unchanged, regardless of the sampled frame's landmarks. -/
theorem claim_C3_staleness_hides_layer :
    ∀ (history : List PoseFrame) (now : ℚ) (layers : List LayerState)
      (i : ℕ) (st : LayerState) (fr : PoseFrame) (d : ℚ),
      layers[i]? = some st →
      findNearest history (layerTarget now i) = some (fr, d) →
      1000 ≤ d →
      (animateTick history now layers)[i]? =
        some { positions := st.positions, visible := false } := by
  intro history now layers i st fr d hget hfind hd
  have hne : 0 < history.length := by
    cases history with
    | nil => simp [findNearest] at hfind
    | cons h rest => simp
  have htick : tickLayer history now i st =
      { positions := st.positions, visible := false } := by
    cases hl : fr.landmarks with
    | none => simp only [tickLayer, hfind, hl]
    | some lms =>
      simp only [tickLayer, hfind, hl]
      rw [if_neg (not_lt.mpr hd)]
  simp only [animateTick, if_pos hne, List.getElem?_mapIdx, hget, Option.map_some', htick]

/-- A frame at timestamp 0 carrying the full landmark array (spec scenario
for the staleness policy). -/
def fr0 : PoseFrame := { timestamp := 0, landmarks := some lmsFull }

/-- A concrete layer with a zero buffer and visible flag set. -/
def layer0 : LayerState := { positions := List.replicate 210 0, visible := true }

/-- Witness for C3: one frame at t = 0, tick at now = 2000 ms, layer 0
(delay 0): the difference 2000 ms is stale, so the layer is hidden. -/
theorem claim_C3_staleness_hides_layer_witness :
    ([layer0][0]? = some layer0) ∧
    findNearest [fr0] (layerTarget 2000 0) = some (fr0, 2000) ∧
    (1000 : ℚ) ≤ 2000 ∧
    (animateTick [fr0] 2000 [layer0])[0]? =
      some { positions := layer0.positions, visible := false } := by
  have hfind : findNearest [fr0] (layerTarget 2000 0) = some (fr0, 2000) := by
    norm_num [findNearest, scanAux, layerTarget, TRAIL_COUNT, MAX_DELAY_MS, fr0]
  exact ⟨rfl, hfind, by norm_num,
    claim_C3_staleness_hides_layer [fr0] 2000 [layer0] 0 layer0 fr0 2000 rfl hfind
      (by norm_num)⟩

/-! ### Material opacity -/

lemma opacityBase_cast (i : ℕ) : (opacityBase i : ℝ) = 1 - (i : ℝ) / 15 := by
  simp only [opacityBase, TRAIL_COUNT]
  push_cast
  ring

lemma opacityBase_pos {i : ℕ} (hi : i < 15) : 0 < (opacityBase i : ℝ) := by
  rw [opacityBase_cast]
  have h1 : (i : ℝ) < 15 := by exact_mod_cast hi
  have h2 : (i : ℝ) / 15 < 1 := (div_lt_one (by norm_num)).mpr h1
  linarith

lemma opacityBase_le_one (i : ℕ) : (opacityBase i : ℝ) ≤ 1 := by
  rw [opacityBase_cast]
  have h0 : (0 : ℝ) ≤ (i : ℝ) / 15 := by positivity
  linarith

/-- C10: each layer material's opacity, `Math.pow(1.0 - i / TRAIL_COUNT, 1.5)`,
equals `(1 - i/15) ^ 1.5`, is strictly decreasing in the layer index, and lies
in the half-open interval `(0, 1]` for every layer `i < 15`. -/
theorem claim_C10_opacity_profile :
    TRAIL_COUNT = 15 ∧
    (∀ i : ℕ, i < TRAIL_COUNT →
        (opacityBase i : ℝ) ^ (1.5 : ℝ) = (1 - (i : ℝ) / 15) ^ (1.5 : ℝ) ∧
        0 < (opacityBase i : ℝ) ^ (1.5 : ℝ) ∧
        (opacityBase i : ℝ) ^ (1.5 : ℝ) ≤ 1) ∧
    (∀ i j : ℕ, i < j → j < TRAIL_COUNT →
        (opacityBase j : ℝ) ^ (1.5 : ℝ) < (opacityBase i : ℝ) ^ (1.5 : ℝ)) := by
  refine ⟨rfl, ?_, ?_⟩
  · intro i hi
    have h15 : i < 15 := by simpa [TRAIL_COUNT] using hi
    exact ⟨by rw [opacityBase_cast],
      Real.rpow_pos_of_pos (opacityBase_pos h15) _,
      Real.rpow_le_one (opacityBase_pos h15).le (opacityBase_le_one i) (by norm_num)⟩
  · intro i j hij hj
    have hj15 : j < 15 := by simpa [TRAIL_COUNT] using hj
    apply Real.rpow_lt_rpow (opacityBase_pos hj15).le ?_ (by norm_num)
    rw [opacityBase_cast, opacityBase_cast]
    have h1 : (i : ℝ) < (j : ℝ) := by exact_mod_cast hij
    have h2 : (i : ℝ) / 15 < (j : ℝ) / 15 :=
      (div_lt_div_iff_of_pos_right (by norm_num : (0 : ℝ) < 15)).mpr h1
    linarith

/-- Witness for C10: the faintest layer (index 14) still has an opacity in
the interval `(0, 1]`. -/
theorem claim_C10_opacity_profile_witness :
    (14 : ℕ) < TRAIL_COUNT ∧
    0 < (opacityBase 14 : ℝ) ^ (1.5 : ℝ) ∧ (opacityBase 14 : ℝ) ^ (1.5 : ℝ) ≤ 1 :=
  ⟨by norm_num [TRAIL_COUNT],
   (claim_C10_opacity_profile.2.1 14 (by norm_num [TRAIL_COUNT])).2.1,
   (claim_C10_opacity_profile.2.1 14 (by norm_num [TRAIL_COUNT])).2.2⟩

end NeonChronos
